import Mathlib

/-!
Verification of the mela2mealie recipe migration tool (`mela2mealie.py`).

The development shallowly embeds the pure core of the program:

* the text normalizer (`slugify`, `parse_time_to_iso`),
* the structured-text parsers (`mela_ingredients_to_list`,
  `mela_instructions_to_steps`),
* the record mapper (`convert_mela_to_mealie`), and
* the per-record slice of the migration orchestrator (`migrateRecord`),

and proves the testable properties stated for them.

Modelling conventions:

* Python strings are modelled as `List Char` internally; `String` wrappers are
  provided at the boundaries.  `str.strip` is `pyStrip` (Python's whitespace
  set), `str.split("\n")` is `splitLines`, `str.lower`/`str.upper` are
  `Char.toLower`/`Char.toUpper` mapped over the characters (the program only
  ever case-maps slugs and duration tokens, for which the ASCII case maps of
  Lean and Python agree).
* `unicodedata.normalize("NFKD", t).encode("ascii", "ignore")` is modelled by
  `asciiFoldChar`: ASCII characters are NFKD-invariant and kept verbatim, a
  sample table of common accented letters decomposes to the base letter, and
  every other non-ASCII character is dropped by the ascii/ignore step.
* `uuid.uuid4()` draws are modelled by explicit identifier streams
  (`Nat → String` parameters); consumers index them in call order.
* JSON dicts are modelled as structures whose optional keys are `Option`
  fields (`none` = key absent); the Mealie payload's time fields are
  `Option (Option String)` because the source can store `None` under a
  present key.
* The HTTP API is modelled as an oracle `List Req → HttpResponse` giving the
  response to the last request of a request history; network exceptions are
  out of scope.
-/

namespace MelaToMealie

/-- Python's `str.strip()` whitespace set (space, tab, newline, carriage
return, vertical tab, form feed), which is also the ASCII fragment of the
regex class `\s`. -/
def isPySpace (c : Char) : Bool :=
  c = ' ' || c = '\t' || c = '\n' || c = '\r' || c = '\x0b' || c = '\x0c'

/-- The regex class `\w` on the ASCII strings the program feeds it:
letters, digits and underscore. -/
def isWordChar (c : Char) : Bool :=
  c.isAlphanum || c = '_'

/-- Remove leading and trailing characters satisfying `p`
(Python's `str.strip(chars)`). -/
def stripEnds (p : Char → Bool) (l : List Char) : List Char :=
  ((l.dropWhile p).reverse.dropWhile p).reverse

/-- Python's `str.strip()`. -/
def pyStrip (l : List Char) : List Char :=
  stripEnds isPySpace l

/-- Python's `str.split("\n")`: `[]` never occurs; the empty string yields
`[[]]`, and every newline separates two (possibly empty) pieces. -/
def splitLines : List Char → List (List Char)
  | [] => [[]]
  | c :: cs =>
    if c = '\n' then [] :: splitLines cs
    else
      match splitLines cs with
      | [] => [[c]]
      | l :: ls => (c :: l) :: ls

/-- `unicodedata.normalize("NFKD", ·).encode("ascii", "ignore")`, per
character.  ASCII characters have no NFKD decomposition and survive the
ascii/ignore encoding unchanged; a sample of accented Latin-1 letters
decomposes into its base letter followed by a (dropped) combining mark; all
remaining non-ASCII characters are modelled as dropped. -/
def asciiFoldChar (c : Char) : List Char :=
  if c.toNat < 128 then [c]
  else if c = 'ä' || c = 'à' || c = 'á' || c = 'â' then ['a']
  else if c = 'é' || c = 'è' || c = 'ê' || c = 'ë' then ['e']
  else if c = 'ö' || c = 'ô' || c = 'ò' || c = 'ó' then ['o']
  else if c = 'ü' || c = 'ù' || c = 'ú' || c = 'û' then ['u']
  else if c = 'ï' || c = 'î' || c = 'ì' || c = 'í' then ['i']
  else if c = 'ç' then ['c']
  else if c = 'ñ' then ['n']
  else []

/-- One pass of `re.sub` with a character-class-plus pattern: every maximal
nonempty run of characters satisfying `p` is replaced by the single
character `r`.  The flag records whether the scanner is inside a run whose
replacement has already been emitted. -/
def subRunsAux (p : Char → Bool) (r : Char) (inRun : Bool) : List Char → List Char
  | [] => []
  | c :: cs =>
    if p c then
      if inRun then subRunsAux p r true cs
      else r :: subRunsAux p r true cs
    else c :: subRunsAux p r false cs

/-- `re.sub(r'X+', r, l)` for a character class `X` given by `p`. -/
def subRuns (p : Char → Bool) (r : Char) (l : List Char) : List Char :=
  subRunsAux p r false l

/-- `slugify` from `mela2mealie.py` (lines 45-54), on character lists:
NFKD-normalize and drop non-ASCII, lowercase, strip, remove characters
outside `[\w\s-]`, turn whitespace/underscore runs into single hyphens,
collapse hyphen runs, and trim hyphens at both ends. -/
def slugifyList (l : List Char) : List Char :=
  let t0 := l.flatMap asciiFoldChar
  let t1 := t0.map Char.toLower
  let t2 := pyStrip t1
  let t3 := t2.filter (fun c => isWordChar c || isPySpace c || c = '-')
  let t4 := subRuns (fun c => isPySpace c || c = '_') '-' t3
  let t5 := subRuns (fun c => c = '-') '-' t4
  stripEnds (fun c => c = '-') t5

/-- `slugify` on strings. -/
def slugify (s : String) : String :=
  String.mk (slugifyList s.data)

/-! ### Duration parsing (`parse_time_to_iso`, lines 57-101) -/

/-- Does the character list start with the given needle? -/
def startsWithChars : List Char → List Char → Bool
  | [], _ => true
  | _ :: _, [] => false
  | c :: cs, d :: ds => c = d && startsWithChars cs ds

/-- `int` of a nonempty ASCII digit string. -/
def digitsVal (l : List Char) : Nat :=
  l.foldl (fun a c => a * 10 + (c.toNat - 48)) 0

/-- Matchability of the unit alternative of the hour regex
`h(?:ours?|r)?|stunde[n]?` at the start of the residue: the optional suffix
groups never block a match, so the alternation matches exactly when the
residue starts with `h` or with `stunde`. -/
def hourUnitHere (rest : List Char) : Bool :=
  startsWithChars ['h'] rest || startsWithChars ['s', 't', 'u', 'n', 'd', 'e'] rest

/-- Matchability of the unit alternative of the minute regex
`m(?:in(?:ute[ns]?)?)?|minute[n]?`: it matches exactly when the residue
starts with `m`. -/
def minuteUnitHere (rest : List Char) : Bool :=
  startsWithChars ['m'] rest

/-- `re.search(r'(\d+)\s*UNIT', l)` for a unit alternation that consumes no
digits or whitespace: scan left to right for a digit; take the maximal digit
run, skip whitespace, and test the unit.  Greedy `\d+`/`\s*` never needs to
backtrack here because shortening the digit run leaves a digit (not a unit
letter) under the cursor and the unit alternatives never start with
whitespace.  Starting inside an already-failed digit run also cannot
succeed, so advancing one character at a time is the leftmost-match
semantics of `re.search`. -/
def searchNumUnit (unit : List Char → Bool) : List Char → Option Nat
  | [] => none
  | c :: cs =>
    if c.isDigit then
      let run := (c :: cs).takeWhile Char.isDigit
      let rest := ((c :: cs).dropWhile Char.isDigit).dropWhile isPySpace
      if unit rest then some (digitsVal run)
      else searchNumUnit unit cs
    else searchNumUnit unit cs

/-- The string returned by `parse_time_to_iso` for a stripped, lowered,
nonempty input `l` (every exit of the Python function past the emptiness
guard returns a string, never `None`). -/
def parseClock (l : List Char) : String :=
  if startsWithChars ['p', 't'] l then String.mk (l.map Char.toUpper)
  else
    match searchNumUnit hourUnitHere l, searchNumUnit minuteUnitHere l with
    | none, none =>
      if l.all Char.isDigit then
        if digitsVal l = 0 then String.mk l
        else "PT" ++ toString (digitsVal l) ++ "M"
      else String.mk l
    | h?, m? =>
      if h?.getD 0 = 0 ∧ m?.getD 0 = 0 then String.mk l
      else
        "PT" ++ (if h?.getD 0 = 0 then "" else toString (h?.getD 0) ++ "H")
             ++ (if m?.getD 0 = 0 then "" else toString (m?.getD 0) ++ "M")

/-- `parse_time_to_iso` (lines 57-101).  `none` models both a `None`
argument and a `None` result; a present argument is first checked for
truthiness and strippability, then stripped, lowered and parsed. -/
def parse_time_to_iso (t : Option String) : Option String :=
  match t with
  | none => none
  | some s =>
    let l := (pyStrip s.data).map Char.toLower
    if l = [] then none else some (parseClock l)

/-! ### Data model -/

/-- One `.melarecipe` JSON record.  Every key may be absent (`none`); the
boolean flags default to `False` when absent, which Python's truthiness
tests cannot distinguish from a present `false`.  `date` is the numeric
NSDate offset (seconds since 2001-01-01T00:00:00Z), modelled as an
integer. -/
structure MelaRecipe where
  title : Option String := none
  text : Option String := none
  yld : Option String := none
  prepTime : Option String := none
  cookTime : Option String := none
  totalTime : Option String := none
  link : Option String := none
  date : Option Int := none
  ingredients : Option String := none
  instructions : Option String := none
  notes : Option String := none
  nutrition : Option String := none
  categories : Option (List String) := none
  favorite : Bool := false
  wantToCook : Bool := false
  images : List String := []
deriving DecidableEq, Repr

/-- A category or tag reference entity `{"id": ..., "name": ..., "slug": ...}`. -/
structure RefEntity where
  id : String
  name : String
  slug : String
deriving DecidableEq, Repr

/-- One Mealie ingredient dict; the `title` key is present only when a
pending section header is attached. -/
structure Ingredient where
  note : String
  referenceId : String
  title : Option String := none
deriving DecidableEq, Repr

/-- One Mealie instruction step dict; all five keys are always present. -/
structure Step where
  id : String
  title : String
  summary : String
  text : String
  ingredientReferences : List String
deriving DecidableEq, Repr

/-- A `{"title": ..., "text": ...}` note block. -/
structure NoteBlock where
  title : String
  text : String
deriving DecidableEq, Repr

/-- The Mealie PATCH payload built by `convert_mela_to_mealie`.  `none` on
an outer `Option` means the key is absent from the dict; the time fields
are doubly optional because the key, when present, holds whatever
`parse_time_to_iso` returned, which can be Python's `None`. -/
structure MealieRecipe where
  name : Option String := none
  description : Option String := none
  recipeYield : Option String := none
  prepTime : Option (Option String) := none
  performTime : Option (Option String) := none
  totalTime : Option (Option String) := none
  orgURL : Option String := none
  dateAdded : Option String := none
  createdAt : Option String := none
  recipeIngredient : List Ingredient := []
  recipeInstructions : List Step := []
  notes : Option (List NoteBlock) := none
  recipeCategory : Option (List RefEntity) := none
  tags : Option (List RefEntity) := none
deriving DecidableEq, Repr

/-- The keys present in the payload dict, in insertion order. -/
def mealieKeys (m : MealieRecipe) : List String :=
  (if m.name.isSome then ["name"] else [])
    ++ (if m.description.isSome then ["description"] else [])
    ++ (if m.recipeYield.isSome then ["recipeYield"] else [])
    ++ (if m.prepTime.isSome then ["prepTime"] else [])
    ++ (if m.performTime.isSome then ["performTime"] else [])
    ++ (if m.totalTime.isSome then ["totalTime"] else [])
    ++ (if m.orgURL.isSome then ["orgURL"] else [])
    ++ (if m.dateAdded.isSome then ["dateAdded"] else [])
    ++ (if m.createdAt.isSome then ["createdAt"] else [])
    ++ ["recipeIngredient", "recipeInstructions"]
    ++ (if m.notes.isSome then ["notes"] else [])
    ++ (if m.recipeCategory.isSome then ["recipeCategory"] else [])
    ++ (if m.tags.isSome then ["tags"] else [])

/-! ### Structured-text parsers (lines 104-171) -/

/-- Fold of `mela_ingredients_to_list` over the split lines.  `g` is the
`uuid.uuid4()` stream and `n` the index of the next draw; `pending` is the
`pending_title` accumulator (initially Python's `None`; a header line
stores its stripped text, and only a *truthy* pending title is attached
and cleared). -/
def ingAux (g : Nat → String) (n : Nat) (pending : Option String) :
    List (List Char) → List Ingredient
  | [] => []
  | line :: rest =>
    let l := pyStrip line
    if l = [] then ingAux g n pending rest
    else if l.head? = some '#' then
      ingAux g n (some (String.mk (pyStrip (l.dropWhile (fun c => c = '#'))))) rest
    else
      match pending with
      | some t =>
        if t ≠ "" then
          { note := String.mk l, referenceId := g n, title := some t }
            :: ingAux g (n + 1) none rest
        else
          { note := String.mk l, referenceId := g n, title := none }
            :: ingAux g (n + 1) pending rest
      | none =>
        { note := String.mk l, referenceId := g n, title := none }
          :: ingAux g (n + 1) none rest

/-- `mela_ingredients_to_list` (lines 142-171). -/
def mela_ingredients_to_list (g : Nat → String) (s : String) : List Ingredient :=
  if s = "" then [] else ingAux g 0 none (splitLines s.data)

/-- Fold of `mela_instructions_to_steps` over the split lines. -/
def stepAux (g : Nat → String) (n : Nat) : List (List Char) → List Step
  | [] => []
  | line :: rest =>
    let l := pyStrip line
    if l = [] then stepAux g n rest
    else if l.head? = some '#' then
      { id := g n, title := String.mk (pyStrip (l.dropWhile (fun c => c = '#'))),
        summary := "", text := "", ingredientReferences := [] }
        :: stepAux g (n + 1) rest
    else
      { id := g n, title := "", summary := "", text := String.mk l,
        ingredientReferences := [] }
        :: stepAux g (n + 1) rest

/-- `mela_instructions_to_steps` (lines 104-139). -/
def mela_instructions_to_steps (g : Nat → String) (s : String) : List Step :=
  if s = "" then [] else stepAux g 0 (splitLines s.data)

/-! ### Date conversion (lines 204-209) -/

/-- Zero-pad a small number to two digits (`strftime` / `isoformat`
month, day, hour, minute, second fields). -/
def pad2 (n : Nat) : String :=
  if n < 10 then "0" ++ toString n else toString n

/-- Proleptic Gregorian `(year, month, day)` of a day count relative to
1970-01-01 (the standard civil-from-days algorithm used by
`datetime.timedelta` arithmetic). -/
def civilFromDays (z0 : Int) : Int × Nat × Nat :=
  let z := z0 + 719468
  let era := Int.ediv z 146097
  let doe := (z - era * 146097).toNat
  let yoe := (doe - doe / 1460 + doe / 36524 - doe / 146096) / 365
  let doy := doe - (365 * yoe + yoe / 4 - yoe / 100)
  let mp := (5 * doy + 2) / 153
  let d := doy - (153 * mp + 2) / 5 + 1
  let m := if mp < 10 then mp + 3 else mp - 9
  (Int.ofNat yoe + era * 400 + (if m ≤ 2 then 1 else 0), m, d)

/-- Days between 1970-01-01 and the NSDate epoch 2001-01-01. -/
def nsdateEpochDays : Int := 11323

/-- `(nsdate_epoch + timedelta(seconds=secs)).strftime("%Y-%m-%d")`. -/
def nsdateToYMD (secs : Int) : String :=
  let days := Int.ediv secs 86400 + nsdateEpochDays
  let ymd := civilFromDays days
  toString ymd.1 ++ "-" ++ pad2 ymd.2.1 ++ "-" ++ pad2 ymd.2.2

/-- `(nsdate_epoch + timedelta(seconds=secs)).isoformat()` for a
whole-second UTC datetime. -/
def nsdateToIso (secs : Int) : String :=
  let rem := (Int.emod secs 86400).toNat
  nsdateToYMD secs ++ "T" ++ pad2 (rem / 3600) ++ ":" ++ pad2 (rem % 3600 / 60)
    ++ ":" ++ pad2 (rem % 60) ++ "+00:00"

/-! ### Record mapper (`convert_mela_to_mealie`, lines 174-254) -/

/-- Python truthiness of an optional string value. -/
def truthyS (o : Option String) : Bool :=
  match o with
  | none => false
  | some s => s ≠ ""

/-- `convert_mela_to_mealie` (lines 174-254).  `gi`/`gs` are the
`uuid.uuid4()` streams for ingredient reference ids and step ids; the
lookup tables map slugs to reference entities, as built by the resolver. -/
def convert_mela_to_mealie (gi gs : Nat → String) (mela : MelaRecipe)
    (category_lookup tag_lookup : List (String × RefEntity)) : MealieRecipe :=
  { name := mela.title.filter (fun s => s ≠ "")
    description := mela.text.filter (fun s => s ≠ "")
    recipeYield := mela.yld.filter (fun s => s ≠ "")
    prepTime := (mela.prepTime.filter (fun s => s ≠ "")).map
      (fun t => parse_time_to_iso (some t))
    performTime := (mela.cookTime.filter (fun s => s ≠ "")).map
      (fun t => parse_time_to_iso (some t))
    totalTime := (mela.totalTime.filter (fun s => s ≠ "")).map
      (fun t => parse_time_to_iso (some t))
    orgURL := mela.link.filter (fun s => s ≠ "")
    dateAdded := (mela.date.filter (fun d => d ≠ 0)).map nsdateToYMD
    createdAt := (mela.date.filter (fun d => d ≠ 0)).map nsdateToIso
    recipeIngredient := mela_ingredients_to_list gi (mela.ingredients.getD "")
    recipeInstructions := mela_instructions_to_steps gs (mela.instructions.getD "")
    notes :=
      let parts :=
        (if truthyS mela.notes then
          [{ title := "Notes", text := mela.notes.getD "" : NoteBlock }] else [])
        ++ (if truthyS mela.nutrition then
          [{ title := "Nutrition", text := mela.nutrition.getD "" : NoteBlock }] else [])
      if parts ≠ [] then some parts else none
    recipeCategory :=
      match mela.categories with
      | none => none
      | some cs =>
        if cs ≠ [] then
          let refs := cs.filterMap
            (fun c => if c = "" then none else category_lookup.lookup (slugify c))
          if refs ≠ [] then some refs else none
        else none
    tags :=
      let tagRefs :=
        (match tag_lookup.lookup "mela-import" with
         | some e => [e]
         | none => [])
        ++ (if mela.favorite then
              match tag_lookup.lookup "favorite" with
              | some e => [e]
              | none => []
            else [])
        ++ (if mela.wantToCook then
              match tag_lookup.lookup "want-to-cook" with
              | some e => [e]
              | none => []
            else [])
      if tagRefs ≠ [] then some tagRefs else none }

/-- Reset every generated ingredient reference id. -/
def scrubIngredient (i : Ingredient) : Ingredient :=
  { i with referenceId := "" }

/-- Reset every generated step id. -/
def scrubStep (s : Step) : Step :=
  { s with id := "" }

/-- The payload with all freshly generated identifiers erased: two payloads
agree after scrubbing exactly when they agree on every field except the
generated ids. -/
def scrubRecipe (m : MealieRecipe) : MealieRecipe :=
  { m with recipeIngredient := m.recipeIngredient.map scrubIngredient
           recipeInstructions := m.recipeInstructions.map scrubStep }

/-! ### Migration orchestrator, per-record slice (lines 445-520) -/

/-- The outbound API requests the per-record loop can issue. -/
inductive Req where
  | createRecipe : String → Req
  | patchRecipe : String → MealieRecipe → Req
  | putImage : String → Req
deriving DecidableEq, Repr

/-- A response: HTTP status code and body text. -/
structure HttpResponse where
  status : Nat
  text : String
deriving DecidableEq, Repr

/-- Terminal state of one record. -/
inductive MigrationOutcome where
  | succeeded
  | failed
deriving DecidableEq, Repr

/-- `resp.text.strip().strip('"')` — the slug returned by a successful
recipe-stub creation. -/
def slugOfResponse (resp : HttpResponse) : String :=
  String.mk (stripEnds (fun c => c = '"') (pyStrip resp.text.data))

/-- The non-dry-run body of `migrate`'s per-record loop (lines 462-516),
for one record.  The remote API is an oracle mapping the request history
(earlier requests first, the request being answered last) to a response;
transport exceptions are out of scope.  Returns the record's terminal
state and the requests issued for it, in order.  `now` is `int(time.time())`
at the moment of a conflict retry.  The image step (`upload_image`) is
modelled as one `PUT` request whose response never affects the outcome;
the no-request path taken when base64 decoding fails is not modelled. -/
def migrateRecord (oracle : List Req → HttpResponse) (now : Nat)
    (category_lookup tag_lookup : List (String × RefEntity)) (skip_images : Bool)
    (gi gs : Nat → String) (mela : MelaRecipe) : MigrationOutcome × List Req :=
  let title := mela.title.getD "Untitled"
  let h1 := [Req.createRecipe title]
  let r1 := oracle h1
  let afterCreate := fun (slug : String) (h : List Req) =>
    let payload := convert_mela_to_mealie gi gs mela category_lookup tag_lookup
    let h3 := h ++ [Req.patchRecipe slug payload]
    let r3 := oracle h3
    if r3.status ≠ 200 then (MigrationOutcome.failed, h3)
    else
      let h4 := if mela.images ≠ [] && !skip_images then h3 ++ [Req.putImage slug] else h3
      (MigrationOutcome.succeeded, h4)
  if r1.status = 201 then
    afterCreate (slugOfResponse r1) h1
  else if r1.status = 409 then
    let titleUnique := title ++ " (mela-" ++ toString now ++ ")"
    let h2 := h1 ++ [Req.createRecipe titleUnique]
    let r2 := oracle h2
    if r2.status = 201 then afterCreate (slugOfResponse r2) h2
    else (MigrationOutcome.failed, h2)
  else (MigrationOutcome.failed, h1)

/-! ### Fixtures used by witnesses and counterexamples -/

/-- The disambiguated name used for the single conflict retry:
the original title followed by a numeric timestamp suffix. -/
def retryName (title : String) (now : Nat) : String :=
  title ++ " (mela-" ++ toString now ++ ")"

/-- The step built from the content line `l` with identifier `g i`. -/
def stepOfLine (g : Nat → String) (i : Nat) (l : List Char) : Step :=
  if l.head? = some '#' then
    { id := g i, title := String.mk (pyStrip (l.dropWhile (fun c => c = '#'))),
      summary := "", text := "", ingredientReferences := [] }
  else
    { id := g i, title := "", summary := "", text := String.mk l,
      ingredientReferences := [] }

/-- A stripped line that produces an ingredient entry: nonempty and not a
section header. -/
def isContentLine (l : List Char) : Bool :=
  !l.isEmpty && !(l.head? == some '#')

/-- The character set `slugify` can emit: lowercase ASCII letters, digits,
and the hyphen. -/
def GoodChar (c : Char) : Prop :=
  c.toNat < 128 ∧ c.isUpper = false ∧ (isWordChar c = true ∨ c = '-') ∧
    isPySpace c = false ∧ c ≠ '_'

/-- No two adjacent hyphens. -/
def noTwoHyphens (l : List Char) : Prop :=
  List.Chain' (fun a b => ¬(a = '-' ∧ b = '-')) l

/-- The canonical form of `slugify` output: every character drawn from the
slug alphabet, no hyphen run, and no hyphen at either end. -/
def Slugish (l : List Char) : Prop :=
  (∀ c ∈ l, GoodChar c) ∧ noTwoHyphens l ∧
    (∀ c, l.head? = some c → c ≠ '-') ∧ (∀ c, l.getLast? = some c → c ≠ '-')

/-- A generic indexed map, used to state the closed forms of the
structured-text parsers: `mapWithIndex f n [a, b, ...] = [f n a, f (n+1) b, ...]`. -/
def mapWithIndex (f : Nat → α → β) : Nat → List α → List β
  | _, [] => []
  | n, a :: as => f n a :: mapWithIndex f (n + 1) as

/-- A concrete identifier stream standing in for `uuid.uuid4()` draws. -/
def gid : Nat → String := fun n => "id-" ++ toString n

/-- A second, distinct concrete identifier stream. -/
def gid' : Nat → String := fun n => "uid-" ++ toString n

/-- A record whose time fields are a whitespace-only string and an
unparseable string. -/
def blankTimesRecipe : MelaRecipe :=
  { prepTime := some " ", cookTime := some "later" }

/-- A server whose first stub creation reports a name conflict, whose
retried creation succeeds, and whose subsequent update fails. -/
def conflictPatchFailOracle : List Req → HttpResponse
  | [Req.createRecipe _] => { status := 409, text := "" }
  | [_, Req.createRecipe _] => { status := 201, text := "lasagna-2" }
  | _ => { status := 500, text := "" }

/-- A server whose first stub creation reports a name conflict and whose
retried creation and subsequent update both succeed. -/
def conflictRetryOkOracle : List Req → HttpResponse
  | [Req.createRecipe _] => { status := 409, text := "" }
  | [_, Req.createRecipe _] => { status := 201, text := " \"lasagna-2\" " }
  | _ => { status := 200, text := "" }

/-! ## Shared lemmas -/

theorem dropWhile_head_false {p : Char → Bool} {l : List Char} {c : Char}
    (h : (l.dropWhile p).head? = some c) : p c = false := by
  have h' := List.head?_dropWhile_not p l
  rw [h] at h'
  exact h'

theorem dropWhile_eq_self_of_head {p : Char → Bool} {l : List Char}
    (h : ∀ c, l.head? = some c → p c = false) : l.dropWhile p = l := by
  cases l with
  | nil => rfl
  | cons a as =>
    rw [List.dropWhile_cons]
    simp [h a rfl]

theorem stripEnds_isInfix (p : Char → Bool) (l : List Char) :
    stripEnds p l <:+: l := by
  unfold stripEnds
  obtain ⟨t, ht⟩ := List.dropWhile_suffix (l := (l.dropWhile p).reverse) p
  have hpre : ((l.dropWhile p).reverse.dropWhile p).reverse <+: l.dropWhile p := by
    refine ⟨t.reverse, ?_⟩
    have := congrArg List.reverse ht
    simpa using this
  exact hpre.isInfix.trans (List.dropWhile_suffix p).isInfix

theorem mem_stripEnds {p : Char → Bool} {l : List Char} {c : Char}
    (h : c ∈ stripEnds p l) : c ∈ l :=
  (stripEnds_isInfix p l).subset h

theorem stripEnds_head_false {p : Char → Bool} {l : List Char} {c : Char}
    (h : (stripEnds p l).head? = some c) : p c = false := by
  unfold stripEnds at h
  rw [List.head?_reverse] at h
  obtain ⟨t, ht⟩ := List.dropWhile_suffix (l := (l.dropWhile p).reverse) p
  have h2 : ((l.dropWhile p).reverse).getLast? = some c := by
    rw [← ht, List.getLast?_append, h]
    rfl
  rw [List.getLast?_reverse] at h2
  exact dropWhile_head_false h2

theorem stripEnds_getLast_false {p : Char → Bool} {l : List Char} {c : Char}
    (h : (stripEnds p l).getLast? = some c) : p c = false := by
  unfold stripEnds at h
  rw [List.getLast?_reverse] at h
  exact dropWhile_head_false h

theorem stripEnds_eq_self {p : Char → Bool} {l : List Char}
    (hh : ∀ c, l.head? = some c → p c = false)
    (hl : ∀ c, l.getLast? = some c → p c = false) :
    stripEnds p l = l := by
  unfold stripEnds
  rw [dropWhile_eq_self_of_head hh]
  rw [dropWhile_eq_self_of_head (by
    intro c hc
    rw [List.head?_reverse] at hc
    exact hl c hc)]
  exact List.reverse_reverse l

theorem stripEnds_chain' {R : Char → Char → Prop} {p : Char → Bool} {l : List Char}
    (h : List.Chain' R l) : List.Chain' R (stripEnds p l) :=
  h.infix (stripEnds_isInfix p l)

/-! ## C6: concrete duration parses -/

/-- C6: `parse_time_to_iso` maps `"1 hour 15 minutes"` and `"1h 15m"` to the
same composed token `"PT1H15M"`, and the bare integer `"45"` to `"PT45M"`. -/
theorem parse_time_to_iso_concrete_examples :
    parse_time_to_iso (some "1 hour 15 minutes") = some "PT1H15M" ∧
    parse_time_to_iso (some "1h 15m") = some "PT1H15M" ∧
    parse_time_to_iso (some "45") = some "PT45M" := by
  refine ⟨?_, ?_, ?_⟩ <;> decide

/-! ## C7: `parse_time_to_iso` returns `none` exactly on blank input -/

theorem parseClock_passthrough {l : List Char}
    (h1 : startsWithChars ['p', 't'] l = false)
    (h2 : searchNumUnit hourUnitHere l = none)
    (h3 : searchNumUnit minuteUnitHere l = none)
    (h4 : l.all Char.isDigit = false) :
    parseClock l = String.mk l := by
  unfold parseClock
  rw [h1, h2, h3, h4]
  simp

/-- C7: `parse_time_to_iso` returns `none` iff its argument is `None` or
empty/whitespace-only; in every other case it returns a string, and an
unparseable non-blank input (no `pt` prefix, no hour or minute pattern,
not a bare integer) is passed through as the stripped, lowered original. -/
theorem parse_time_to_iso_none_iff_blank (t : Option String) :
    (parse_time_to_iso t = none ↔ t = none ∨ ∃ s, t = some s ∧ pyStrip s.data = []) ∧
    (∀ s, t = some s →
      startsWithChars ['p', 't'] ((pyStrip s.data).map Char.toLower) = false →
      searchNumUnit hourUnitHere ((pyStrip s.data).map Char.toLower) = none →
      searchNumUnit minuteUnitHere ((pyStrip s.data).map Char.toLower) = none →
      ((pyStrip s.data).map Char.toLower).all Char.isDigit = false →
      parse_time_to_iso t = some (String.mk ((pyStrip s.data).map Char.toLower))) := by
  constructor
  · cases t with
    | none => simp [parse_time_to_iso]
    | some s =>
      simp only [parse_time_to_iso]
      by_cases h : pyStrip s.data = [] <;> simp [h]
  · rintro s rfl h1 h2 h3 h4
    have hne : (pyStrip s.data).map Char.toLower ≠ [] := by
      intro h
      rw [h] at h4
      simp at h4
    have hstrip : pyStrip s.data ≠ [] := by
      intro h
      apply hne
      simp [h]
    simp only [parse_time_to_iso, if_neg hne]
    rw [parseClock_passthrough h1 h2 h3 h4]

/-- Witness for C7 at the unparseable input `"soon"`. -/
theorem parse_time_to_iso_none_iff_blank_witness :
    parse_time_to_iso (some "soon") = some (String.mk (((pyStrip "soon".data)).map Char.toLower)) :=
  (parse_time_to_iso_none_iff_blank (some "soon")).2 "soon" rfl
    (by decide) (by decide) (by decide) (by decide)

/-! ## C8: empty lookup tables -/

theorem recipeCategory_not_mem_keys {m : MealieRecipe} (h : m.recipeCategory = none) :
    "recipeCategory" ∉ mealieKeys m := by
  simp [mealieKeys, h]

theorem tags_not_mem_keys {m : MealieRecipe} (h : m.tags = none) :
    "tags" ∉ mealieKeys m := by
  simp [mealieKeys, h]

/-- C8: with empty category and tag lookup tables the mapper emits neither
the `recipeCategory` key nor the `tags` key, for every source record. -/
theorem convert_empty_lookups_omits_refs (gi gs : Nat → String) (mela : MelaRecipe) :
    (convert_mela_to_mealie gi gs mela [] []).recipeCategory = none ∧
    (convert_mela_to_mealie gi gs mela [] []).tags = none ∧
    "recipeCategory" ∉ mealieKeys (convert_mela_to_mealie gi gs mela [] []) ∧
    "tags" ∉ mealieKeys (convert_mela_to_mealie gi gs mela [] []) := by
  have hcat : (convert_mela_to_mealie gi gs mela [] []).recipeCategory = none := by
    simp only [convert_mela_to_mealie]
    cases mela.categories with
    | none => rfl
    | some cs =>
      simp only []
      split
      · have : cs.filterMap
            (fun c => if c = "" then none else ([] : List (String × RefEntity)).lookup (slugify c)) = [] := by
          simp only [List.filterMap_eq_nil_iff]
          intro a _
          split <;> rfl
        simp [this]
      · rfl
  have htags : (convert_mela_to_mealie gi gs mela [] []).tags = none := by
    simp only [convert_mela_to_mealie]
    cases hf : mela.favorite <;> cases hw : mela.wantToCook <;> simp [List.lookup]
  exact ⟨hcat, htags, recipeCategory_not_mem_keys hcat, tags_not_mem_keys htags⟩

/-- Witness for C8 on a record with a category and a favorite flag. -/
theorem convert_empty_lookups_omits_refs_witness :
    (convert_mela_to_mealie gid gid
        { categories := some ["Dinner"], favorite := true } [] []).recipeCategory = none ∧
    (convert_mela_to_mealie gid gid
        { categories := some ["Dinner"], favorite := true } [] []).tags = none :=
  ⟨(convert_empty_lookups_omits_refs gid gid
      { categories := some ["Dinner"], favorite := true }).1,
   (convert_empty_lookups_omits_refs gid gid
      { categories := some ["Dinner"], favorite := true }).2.1⟩

/-! ## C9: determinism up to generated identifiers -/

theorem ingAux_map_scrub (g g' : Nat → String) (lines : List (List Char)) :
    ∀ (n n' : Nat) (p : Option String),
      (ingAux g n p lines).map scrubIngredient = (ingAux g' n' p lines).map scrubIngredient := by
  induction lines with
  | nil => intro n n' p; rfl
  | cons line rest ih =>
    intro n n' p
    simp only [ingAux]
    split
    · exact ih n n' p
    · split
      · exact ih n n' _
      · cases p with
        | none =>
          simp only [List.map_cons]
          exact congr_arg₂ List.cons rfl (ih _ _ _)
        | some t =>
          by_cases ht : t = "" <;> simp only [ht, ne_eq, not_true_eq_false, if_false,
            not_false_eq_true, if_true, List.map_cons] <;>
            exact congr_arg₂ List.cons rfl (ih _ _ _)

theorem stepAux_map_scrub (g g' : Nat → String) (lines : List (List Char)) :
    ∀ (n n' : Nat),
      (stepAux g n lines).map scrubStep = (stepAux g' n' lines).map scrubStep := by
  induction lines with
  | nil => intro n n'; rfl
  | cons line rest ih =>
    intro n n'
    simp only [stepAux]
    split
    · exact ih n n'
    · split <;> simp only [List.map_cons] <;>
        exact congr_arg₂ List.cons rfl (ih _ _)

/-- C9: the mapper is deterministic up to the generated identifiers — two
invocations with different `uuid` streams agree on every field once the
generated ingredient reference ids and step ids are erased. -/
theorem convert_deterministic_up_to_ids (gi gs gi' gs' : Nat → String)
    (mela : MelaRecipe) (category_lookup tag_lookup : List (String × RefEntity)) :
    scrubRecipe (convert_mela_to_mealie gi gs mela category_lookup tag_lookup) =
      scrubRecipe (convert_mela_to_mealie gi' gs' mela category_lookup tag_lookup) := by
  have hing : (mela_ingredients_to_list gi (mela.ingredients.getD "")).map scrubIngredient
      = (mela_ingredients_to_list gi' (mela.ingredients.getD "")).map scrubIngredient := by
    simp only [mela_ingredients_to_list]
    split
    · rfl
    · exact ingAux_map_scrub gi gi' _ 0 0 none
  have hstep : (mela_instructions_to_steps gs (mela.instructions.getD "")).map scrubStep
      = (mela_instructions_to_steps gs' (mela.instructions.getD "")).map scrubStep := by
    simp only [mela_instructions_to_steps]
    split
    · rfl
    · exact stepAux_map_scrub gs gs' _ 0 0
  simp only [scrubRecipe, convert_mela_to_mealie]
  rw [hing, hstep]

/-! ## C10: the structured lists are always present -/

theorem recipeIngredient_mem_keys (m : MealieRecipe) :
    "recipeIngredient" ∈ mealieKeys m := by
  simp [mealieKeys]

theorem recipeInstructions_mem_keys (m : MealieRecipe) :
    "recipeInstructions" ∈ mealieKeys m := by
  simp [mealieKeys]

/-- C10: the output always carries the `recipeIngredient` and
`recipeInstructions` keys, and an absent source `ingredients`
(resp. `instructions`) field yields the empty list under them. -/
theorem convert_always_has_lists (gi gs : Nat → String) (mela : MelaRecipe)
    (category_lookup tag_lookup : List (String × RefEntity)) :
    "recipeIngredient" ∈ mealieKeys (convert_mela_to_mealie gi gs mela category_lookup tag_lookup) ∧
    "recipeInstructions" ∈ mealieKeys (convert_mela_to_mealie gi gs mela category_lookup tag_lookup) ∧
    (mela.ingredients = none →
      (convert_mela_to_mealie gi gs mela category_lookup tag_lookup).recipeIngredient = []) ∧
    (mela.instructions = none →
      (convert_mela_to_mealie gi gs mela category_lookup tag_lookup).recipeInstructions = []) := by
  refine ⟨recipeIngredient_mem_keys _, recipeInstructions_mem_keys _, ?_, ?_⟩
  · intro h
    simp [convert_mela_to_mealie, h, mela_ingredients_to_list]
  · intro h
    simp [convert_mela_to_mealie, h, mela_instructions_to_steps]

/-- Witness for C10 on a record with no ingredients or instructions keys. -/
theorem convert_always_has_lists_witness :
    (convert_mela_to_mealie gid gid {} [] []).recipeIngredient = [] ∧
    (convert_mela_to_mealie gid gid {} [] []).recipeInstructions = [] :=
  ⟨(convert_always_has_lists gid gid {} [] []).2.2.1 rfl,
   (convert_always_has_lists gid gid {} [] []).2.2.2 rfl⟩

/-! ## C5: closed form of the instruction parser -/

theorem stepAux_closed_form (g : Nat → String) (lines : List (List Char)) :
    ∀ n, stepAux g n lines
      = mapWithIndex (stepOfLine g) n ((lines.map pyStrip).filter (fun l => l ≠ [])) := by
  induction lines with
  | nil => intro n; rfl
  | cons line rest ih =>
    intro n
    simp only [stepAux, List.map_cons, List.filter_cons]
    by_cases h : pyStrip line = []
    · simp only [h, if_pos rfl]
      simpa using ih n
    · simp only [if_neg h]
      have hd : decide (pyStrip line ≠ []) = true := by simpa using h
      rw [hd]
      by_cases hh : (pyStrip line).head? = some '#'
      · simp only [hh, if_pos rfl, mapWithIndex, stepOfLine, if_pos hh]
        exact congr_arg₂ List.cons rfl (ih (n + 1))
      · simp only [if_neg hh, mapWithIndex, stepOfLine]
        exact congr_arg₂ List.cons rfl (ih (n + 1))

/-- C5: every non-blank line of an instructions block becomes exactly one
step, in order: a header line yields a step whose only nonempty textual
field is the title (the line with its markers and surrounding space
removed), any other line yields a step whose only nonempty textual field
is the body text (the stripped line), and the `i`-th step carries the
`i`-th generated identifier, an empty summary and an empty
ingredient-reference list. -/
theorem mela_instructions_to_steps_closed_form (g : Nat → String) (s : String) :
    mela_instructions_to_steps g s
      = mapWithIndex (stepOfLine g) 0
          (((splitLines s.data).map pyStrip).filter (fun l => l ≠ [])) := by
  unfold mela_instructions_to_steps
  by_cases h : s = ""
  · subst h
    rfl
  · rw [if_neg h]
    exact stepAux_closed_form g _ 0

/-! ## C4: ingredient parsing and header attachment -/

theorem splitLines_no_newline {x : List Char} (h : '\n' ∉ x) : splitLines x = [x] := by
  induction x with
  | nil => rfl
  | cons c cs ih =>
    have hc : ¬c = '\n' := fun he => h (he ▸ List.mem_cons_self c cs)
    have hcs : '\n' ∉ cs := fun hm => h (List.mem_cons_of_mem c hm)
    simp only [splitLines, if_neg hc, ih hcs]

theorem splitLines_append {x rest : List Char} (h : '\n' ∉ x) :
    splitLines (x ++ '\n' :: rest) = x :: splitLines rest := by
  induction x with
  | nil => simp [splitLines]
  | cons c cs ih =>
    have hc : ¬c = '\n' := fun he => h (he ▸ List.mem_cons_self c cs)
    have hcs : '\n' ∉ cs := fun hm => h (List.mem_cons_of_mem c hm)
    have e1 : (c :: cs) ++ '\n' :: rest = c :: (cs ++ '\n' :: rest) := rfl
    rw [e1]
    simp only [splitLines, if_neg hc]
    rw [ih hcs]

theorem pyStrip_head_false {l : List Char} {c : Char} (h : pyStrip l = l)
    (hc : l.head? = some c) : isPySpace c = false := by
  rw [← h] at hc
  exact stripEnds_head_false hc

theorem pyStrip_getLast_false {l : List Char} {c : Char} (h : pyStrip l = l)
    (hc : l.getLast? = some c) : isPySpace c = false := by
  rw [← h] at hc
  exact stripEnds_getLast_false hc

theorem pyStrip_hash_cons {t : List Char} (ht : t ≠ []) (hstr : pyStrip t = t) :
    pyStrip ('#' :: t) = '#' :: t := by
  apply stripEnds_eq_self
  · intro c hc
    simp only [List.head?_cons, Option.some.injEq] at hc
    subst hc
    decide
  · intro c hc
    have hlast : ('#' :: t).getLast? = t.getLast? := by
      cases t with
      | nil => exact absurd rfl ht
      | cons y ys => exact List.getLast?_cons_cons
    rw [hlast] at hc
    exact pyStrip_getLast_false hstr hc

theorem ingAux_length (g : Nat → String) (lines : List (List Char)) :
    ∀ (n : Nat) (p : Option String),
      (ingAux g n p lines).length = ((lines.map pyStrip).filter isContentLine).length := by
  induction lines with
  | nil => intro n p; rfl
  | cons line rest ih =>
    intro n p
    simp only [ingAux, List.map_cons, List.filter_cons]
    by_cases h : pyStrip line = []
    · simp only [h]
      simp [isContentLine]
      exact ih n p
    · by_cases hh : (pyStrip line).head? = some '#'
      · have hfalse : isContentLine (pyStrip line) = false := by
          simp [isContentLine, hh]
        simp [h, hh, hfalse]
        exact ih n _
      · have hc : isContentLine (pyStrip line) = true := by
          simp [isContentLine, h, hh, List.isEmpty_iff]
        cases p with
        | none =>
          simp [h, hh, hc]
          exact ih _ _
        | some t =>
          by_cases htt : t = "" <;> simp [htt, h, hh, hc] <;> exact ih _ _

/-- C4: parsing the ingredients block `"# Sauce\nTomatoes\nBasil"` yields
exactly the two entries `{note Tomatoes, title Sauce}` and
`{note Basil, no title}`; header lines never produce an entry (the entry
count is the count of stripped non-blank non-header lines); and in
general a header line's stripped title is attached to the next content
line and cleared there, so the line after that carries no title. -/
theorem mela_ingredients_header_attachment (g : Nat → String) :
    (mela_ingredients_to_list g "# Sauce\nTomatoes\nBasil"
      = [{ note := "Tomatoes", referenceId := g 0, title := some "Sauce" },
         { note := "Basil", referenceId := g 1, title := none }]) ∧
    (∀ s : String, (mela_ingredients_to_list g s).length
      = (((splitLines s.data).map pyStrip).filter isContentLine).length) ∧
    (∀ t a b : List Char,
      t ≠ [] → '\n' ∉ t → t.head? ≠ some '#' → pyStrip t = t →
      a ≠ [] → '\n' ∉ a → a.head? ≠ some '#' → pyStrip a = a →
      b ≠ [] → '\n' ∉ b → b.head? ≠ some '#' → pyStrip b = b →
      mela_ingredients_to_list g (String.mk ('#' :: t ++ '\n' :: a ++ '\n' :: b))
        = [{ note := String.mk a, referenceId := g 0, title := some (String.mk t) },
           { note := String.mk b, referenceId := g 1, title := none }]) := by
  refine ⟨rfl, ?_, ?_⟩
  · intro s
    unfold mela_ingredients_to_list
    by_cases h : s = ""
    · subst h
      rfl
    · rw [if_neg h]
      exact ingAux_length g _ 0 none
  · intro t a b ht hnt hht hst ha hna hha hsa hb hnb hhb hsb
    have hsne : String.mk ('#' :: t ++ '\n' :: a ++ '\n' :: b) ≠ "" := by
      intro he
      have := congrArg String.data he
      simp at this
    unfold mela_ingredients_to_list
    rw [if_neg hsne]
    have h1 : '\n' ∉ '#' :: t := by
      intro hm
      rcases List.mem_cons.mp hm with h | h
      · exact absurd h.symm (by decide)
      · exact hnt h
    have hsplit : splitLines ('#' :: t ++ '\n' :: a ++ '\n' :: b)
        = ('#' :: t) :: a :: [b] := by
      have e1 : '#' :: t ++ '\n' :: a ++ '\n' :: b
          = ('#' :: t) ++ '\n' :: (a ++ '\n' :: b) := by
        simp
      rw [e1, splitLines_append h1, splitLines_append hna, splitLines_no_newline hnb]
    show ingAux g 0 none (splitLines ('#' :: t ++ '\n' :: a ++ '\n' :: b)) = _
    rw [hsplit]
    have hstrip1 : pyStrip ('#' :: t) = '#' :: t := pyStrip_hash_cons ht hst
    have hdrop : ('#' :: t).dropWhile (fun c => c = '#') = t := by
      rw [List.dropWhile_cons]
      simp only [if_pos rfl]
      exact dropWhile_eq_self_of_head (by
        intro c hc
        rcases hc' : t.head? with _ | c'
        · simp [hc'] at hc
        · rw [hc'] at hc
          cases hc
          simp only [decide_eq_false_iff_not]
          intro he
          exact hht (by rw [hc', he]))
    have htne : String.mk t ≠ "" := by
      intro he
      have := congrArg String.data he
      exact ht this
    simp only [ingAux, hstrip1, hdrop, hst, hsa, hsb]
    simp [ha, hha, hb, hhb, htne]

/-- Witness for C4's general part, on the block `"#Sauce\nTomatoes\nBasil"`. -/
theorem mela_ingredients_header_attachment_witness :
    mela_ingredients_to_list gid
        (String.mk ('#' :: "Sauce".data ++ '\n' :: "Tomatoes".data ++ '\n' :: "Basil".data))
      = [{ note := String.mk "Tomatoes".data, referenceId := gid 0,
           title := some (String.mk "Sauce".data) },
         { note := String.mk "Basil".data, referenceId := gid 1, title := none }] :=
  (mela_ingredients_header_attachment gid).2.2 "Sauce".data "Tomatoes".data "Basil".data
    (by decide) (by decide) (by decide) (by decide)
    (by decide) (by decide) (by decide) (by decide)
    (by decide) (by decide) (by decide) (by decide)

/-! ## C1: omission of absent fields -/

theorem filter_ne_eq_none_iff {α : Type} [DecidableEq α] (o : Option α) (x : α) :
    o.filter (fun s => s ≠ x) = none ↔ (o = none ∨ o = some x) := by
  cases o with
  | none => simp [Option.filter]
  | some s => by_cases h : s = x <;> simp [Option.filter, h]

theorem filter_ne_ne_some {α : Type} [DecidableEq α] (o : Option α) (x : α) :
    o.filter (fun s => s ≠ x) ≠ some x := by
  cases o with
  | none => simp [Option.filter]
  | some s => by_cases h : s = x <;> simp [Option.filter, h]

theorem parse_some_eq_none_iff (s : String) :
    parse_time_to_iso (some s) = none ↔ pyStrip s.data = [] := by
  simp only [parse_time_to_iso]
  by_cases h : pyStrip s.data = [] <;> simp [h]

theorem parseClock_ne_empty {l : List Char} (hl : l ≠ []) : parseClock l ≠ "" := by
  intro h
  unfold parseClock at h
  split at h
  · exact hl (by simpa using congrArg String.data h)
  · split at h
    · split at h
      · split at h
        · exact hl (by simpa using congrArg String.data h)
        · simpa using congrArg String.data h
      · exact hl (by simpa using congrArg String.data h)
    · split at h
      · exact hl (by simpa using congrArg String.data h)
      · simpa using congrArg String.data h

theorem timeField_eq_none_iff (o : Option String) :
    (o.filter (fun s => s ≠ "")).map (fun t => parse_time_to_iso (some t)) = none
      ↔ (o = none ∨ o = some "") := by
  rw [Option.map_eq_none']
  exact filter_ne_eq_none_iff o ""

theorem timeField_eq_some_none_iff (o : Option String) :
    (o.filter (fun s => s ≠ "")).map (fun t => parse_time_to_iso (some t)) = some none
      ↔ ∃ s, o = some s ∧ s ≠ "" ∧ pyStrip s.data = [] := by
  cases o with
  | none => simp [Option.filter]
  | some s =>
    by_cases h : s = "" <;> simp [Option.filter, h, parse_some_eq_none_iff]

theorem timeField_ne_some_empty (o : Option String) :
    (o.filter (fun s => s ≠ "")).map (fun t => parse_time_to_iso (some t))
      ≠ some (some "") := by
  cases o with
  | none => simp [Option.filter]
  | some s =>
    by_cases h : s = ""
    · simp [Option.filter, h]
    · have hfs : (some s).filter (fun s => s ≠ "") = some s := by
        simp [Option.filter, h]
      rw [hfs, Option.map_some']
      intro hcontra
      rw [Option.some_inj] at hcontra
      rw [parse_time_to_iso] at hcontra
      by_cases hs : pyStrip s.data = []
      · simp [hs] at hcontra
      · have hl : (pyStrip s.data).map Char.toLower ≠ [] := by simpa using hs
        rw [if_neg hl, Option.some_inj] at hcontra
        exact parseClock_ne_empty hl hcontra

theorem nsdateToYMD_ne_empty (d : Int) : nsdateToYMD d ≠ "" := by
  intro h
  have hlen := congrArg String.length h
  unfold nsdateToYMD at hlen
  simp only [String.length_append] at hlen
  have h1 : String.length "-" = 1 := rfl
  have h0 : String.length "" = 0 := rfl
  rw [h1, h0] at hlen
  omega

theorem nsdateToIso_ne_empty (d : Int) : nsdateToIso d ≠ "" := by
  intro h
  have hlen := congrArg String.length h
  unfold nsdateToIso at hlen
  simp only [String.length_append] at hlen
  have h1 : String.length "T" = 1 := rfl
  have h0 : String.length "" = 0 := rfl
  rw [h1, h0] at hlen
  omega

theorem dateField_eq_none_iff {f : Int → String} (o : Option Int) :
    (o.filter (fun d => d ≠ 0)).map f = none ↔ (o = none ∨ o = some 0) := by
  rw [Option.map_eq_none']
  exact filter_ne_eq_none_iff o 0

theorem truthyS_eq_false_iff (o : Option String) :
    truthyS o = false ↔ (o = none ∨ o = some "") := by
  cases o with
  | none => simp [truthyS]
  | some s => by_cases h : s = "" <;> simp [truthyS, h]

theorem if_ne_nil_ne_some_nil {α : Type} [DecidableEq α] (parts : List α) :
    (if parts ≠ [] then some parts else none) ≠ some [] := by
  by_cases h : parts = [] <;> simp [h]

/-- C1 as stated is false on the code: a present, whitespace-only (hence
truthy) `prepTime` yields a `prepTime` key mapped to `None`, and a present
unparseable `cookTime` yields a `performTime` key holding the passthrough
string rather than no key. -/
theorem convert_blank_time_counterexample :
    (convert_mela_to_mealie gid gid blankTimesRecipe [] []).prepTime = some none ∧
    (convert_mela_to_mealie gid gid blankTimesRecipe [] []).performTime
      = some (some "later") ∧
    "prepTime" ∈ mealieKeys (convert_mela_to_mealie gid gid blankTimesRecipe [] []) := by
  refine ⟨?_, ?_, ?_⟩ <;> decide

/-- C1 (amended): absent or empty source fields are omitted and present
keys never hold an empty value; the sole exceptions are the three time
fields, whose key is emitted whenever the source value is truthy — a
whitespace-only value then maps the key to `None` and an unparseable value
maps it to the passthrough string — so a time key maps to `None` exactly
when its source is a nonempty whitespace-only string. -/
theorem convert_omits_absent_fields (gi gs : Nat → String) (mela : MelaRecipe)
    (category_lookup tag_lookup : List (String × RefEntity)) :
    ((mela.title = none ∨ mela.title = some "")
        ↔ (convert_mela_to_mealie gi gs mela category_lookup tag_lookup).name = none) ∧
    (convert_mela_to_mealie gi gs mela category_lookup tag_lookup).name ≠ some "" ∧
    ((mela.text = none ∨ mela.text = some "")
        ↔ (convert_mela_to_mealie gi gs mela category_lookup tag_lookup).description = none) ∧
    (convert_mela_to_mealie gi gs mela category_lookup tag_lookup).description ≠ some "" ∧
    ((mela.yld = none ∨ mela.yld = some "")
        ↔ (convert_mela_to_mealie gi gs mela category_lookup tag_lookup).recipeYield = none) ∧
    (convert_mela_to_mealie gi gs mela category_lookup tag_lookup).recipeYield ≠ some "" ∧
    ((mela.link = none ∨ mela.link = some "")
        ↔ (convert_mela_to_mealie gi gs mela category_lookup tag_lookup).orgURL = none) ∧
    (convert_mela_to_mealie gi gs mela category_lookup tag_lookup).orgURL ≠ some "" ∧
    ((mela.prepTime = none ∨ mela.prepTime = some "")
        ↔ (convert_mela_to_mealie gi gs mela category_lookup tag_lookup).prepTime = none) ∧
    ((convert_mela_to_mealie gi gs mela category_lookup tag_lookup).prepTime = some none
        ↔ ∃ s, mela.prepTime = some s ∧ s ≠ "" ∧ pyStrip s.data = []) ∧
    (convert_mela_to_mealie gi gs mela category_lookup tag_lookup).prepTime
        ≠ some (some "") ∧
    ((mela.cookTime = none ∨ mela.cookTime = some "")
        ↔ (convert_mela_to_mealie gi gs mela category_lookup tag_lookup).performTime = none) ∧
    ((convert_mela_to_mealie gi gs mela category_lookup tag_lookup).performTime = some none
        ↔ ∃ s, mela.cookTime = some s ∧ s ≠ "" ∧ pyStrip s.data = []) ∧
    (convert_mela_to_mealie gi gs mela category_lookup tag_lookup).performTime
        ≠ some (some "") ∧
    ((mela.totalTime = none ∨ mela.totalTime = some "")
        ↔ (convert_mela_to_mealie gi gs mela category_lookup tag_lookup).totalTime = none) ∧
    ((convert_mela_to_mealie gi gs mela category_lookup tag_lookup).totalTime = some none
        ↔ ∃ s, mela.totalTime = some s ∧ s ≠ "" ∧ pyStrip s.data = []) ∧
    (convert_mela_to_mealie gi gs mela category_lookup tag_lookup).totalTime
        ≠ some (some "") ∧
    ((mela.date = none ∨ mela.date = some 0)
        ↔ (convert_mela_to_mealie gi gs mela category_lookup tag_lookup).dateAdded = none) ∧
    (convert_mela_to_mealie gi gs mela category_lookup tag_lookup).dateAdded ≠ some "" ∧
    ((mela.date = none ∨ mela.date = some 0)
        ↔ (convert_mela_to_mealie gi gs mela category_lookup tag_lookup).createdAt = none) ∧
    (convert_mela_to_mealie gi gs mela category_lookup tag_lookup).createdAt ≠ some "" ∧
    (((mela.notes = none ∨ mela.notes = some "") ∧ (mela.nutrition = none ∨ mela.nutrition = some ""))
        ↔ (convert_mela_to_mealie gi gs mela category_lookup tag_lookup).notes = none) ∧
    (convert_mela_to_mealie gi gs mela category_lookup tag_lookup).notes ≠ some [] ∧
    ((mela.categories = none ∨ mela.categories = some []) →
        (convert_mela_to_mealie gi gs mela category_lookup tag_lookup).recipeCategory = none) ∧
    (convert_mela_to_mealie gi gs mela category_lookup tag_lookup).recipeCategory ≠ some [] ∧
    (convert_mela_to_mealie gi gs mela category_lookup tag_lookup).tags ≠ some [] := by
  simp only [convert_mela_to_mealie]
  refine ⟨(filter_ne_eq_none_iff _ _).symm, filter_ne_ne_some _ _,
    (filter_ne_eq_none_iff _ _).symm, filter_ne_ne_some _ _,
    (filter_ne_eq_none_iff _ _).symm, filter_ne_ne_some _ _,
    (filter_ne_eq_none_iff _ _).symm, filter_ne_ne_some _ _,
    (timeField_eq_none_iff _).symm, timeField_eq_some_none_iff _, timeField_ne_some_empty _,
    (timeField_eq_none_iff _).symm, timeField_eq_some_none_iff _, timeField_ne_some_empty _,
    (timeField_eq_none_iff _).symm, timeField_eq_some_none_iff _, timeField_ne_some_empty _,
    (dateField_eq_none_iff _).symm, ?_, (dateField_eq_none_iff _).symm, ?_, ?_, ?_, ?_, ?_, ?_⟩
  · intro h
    rcases Option.map_eq_some'.mp h with ⟨d, hd, hval⟩
    exact nsdateToYMD_ne_empty d hval
  · intro h
    rcases Option.map_eq_some'.mp h with ⟨d, hd, hval⟩
    exact nsdateToIso_ne_empty d hval
  · constructor
    · rintro ⟨h1, h2⟩
      have t1 : truthyS mela.notes = false := (truthyS_eq_false_iff _).mpr h1
      have t2 : truthyS mela.nutrition = false := (truthyS_eq_false_iff _).mpr h2
      simp [t1, t2]
    · intro h
      by_cases t1 : truthyS mela.notes
      · simp [t1] at h
      · by_cases t2 : truthyS mela.nutrition
        · simp [t1, t2] at h
        · have e1 := (truthyS_eq_false_iff mela.notes).mp (by simpa using t1)
          have e2 := (truthyS_eq_false_iff mela.nutrition).mp (by simpa using t2)
          exact ⟨e1, e2⟩
  · exact if_ne_nil_ne_some_nil _
  · rintro (h | h) <;> simp [h]
  · cases hc : mela.categories with
    | none => simp
    | some cs =>
      by_cases h : cs = []
      · simp [h]
      · simp only [h, ne_eq, not_false_eq_true, if_true]
        exact if_ne_nil_ne_some_nil _
  · exact if_ne_nil_ne_some_nil _

/-- Witness for C1 on the empty record (all keys absent). -/
theorem convert_omits_absent_fields_witness :
    (convert_mela_to_mealie gid gid {} [] []).name = none ∧
    (convert_mela_to_mealie gid gid {} [] []).recipeCategory = none := by
  obtain ⟨h1, _, _, _, _, _, _, _, _, _, _, _, _, _, _, _, _, _, _, _, _, _, _,
    hcat, _, _⟩ := convert_omits_absent_fields gid gid {} [] []
  exact ⟨h1.mp (Or.inl rfl), hcat (Or.inl rfl)⟩

/-! ## C2: name-conflict retry -/

/-- C2 as stated is false on the code: even when the retried creation
succeeds (HTTP 201), a failing subsequent update leaves the record marked
failed. -/
theorem migrate_conflict_retry_counterexample :
    (conflictPatchFailOracle [Req.createRecipe "Lasagna",
        Req.createRecipe "Lasagna (mela-123)"]).status = 201 ∧
    (migrateRecord conflictPatchFailOracle 123 [] [] true gid gid'
        { title := some "Lasagna" }).1 = MigrationOutcome.failed := by
  refine ⟨?_, ?_⟩ <;> decide

/-- C2 (amended): when the stub creation reports a conflict, the
orchestrator retries exactly once with the disambiguated name
`retryName title now`; if that retry succeeds and the subsequent record
update succeeds, the record is marked succeeded, and the only requests
sent are the two creations, one update addressed to the slug returned by
the retry (never to the pre-existing record), and at most one image
upload to that same slug. -/
theorem migrate_conflict_retry (oracle : List Req → HttpResponse) (now : Nat)
    (category_lookup tag_lookup : List (String × RefEntity)) (skip_images : Bool)
    (gi gs : Nat → String) (mela : MelaRecipe)
    (h409 : (oracle [Req.createRecipe (mela.title.getD "Untitled")]).status = 409)
    (h201 : (oracle [Req.createRecipe (mela.title.getD "Untitled"),
        Req.createRecipe (retryName (mela.title.getD "Untitled") now)]).status = 201)
    (h200 : (oracle [Req.createRecipe (mela.title.getD "Untitled"),
        Req.createRecipe (retryName (mela.title.getD "Untitled") now),
        Req.patchRecipe
          (slugOfResponse (oracle [Req.createRecipe (mela.title.getD "Untitled"),
            Req.createRecipe (retryName (mela.title.getD "Untitled") now)]))
          (convert_mela_to_mealie gi gs mela category_lookup tag_lookup)]).status = 200) :
    (migrateRecord oracle now category_lookup tag_lookup skip_images gi gs mela).1
        = MigrationOutcome.succeeded ∧
    (migrateRecord oracle now category_lookup tag_lookup skip_images gi gs mela).2
      = [Req.createRecipe (mela.title.getD "Untitled"),
         Req.createRecipe (retryName (mela.title.getD "Untitled") now),
         Req.patchRecipe
           (slugOfResponse (oracle [Req.createRecipe (mela.title.getD "Untitled"),
             Req.createRecipe (retryName (mela.title.getD "Untitled") now)]))
           (convert_mela_to_mealie gi gs mela category_lookup tag_lookup)]
        ++ (if mela.images ≠ [] && !skip_images then
              [Req.putImage
                (slugOfResponse (oracle [Req.createRecipe (mela.title.getD "Untitled"),
                  Req.createRecipe (retryName (mela.title.getD "Untitled") now)]))]
            else []) := by
  unfold retryName at h201 h200 ⊢
  simp only [migrateRecord, h409]
  norm_num
  rw [h201]
  norm_num
  rw [h200]
  norm_num
  split <;> simp

/-- Witness for C2: a concrete conflicting record that ends succeeded with
the expected request trace. -/
theorem migrate_conflict_retry_witness :
    (migrateRecord conflictRetryOkOracle 1700000000 [] [] true gid gid'
        { title := some "Lasagna" }).1 = MigrationOutcome.succeeded ∧
    (migrateRecord conflictRetryOkOracle 1700000000 [] [] true gid gid'
        { title := some "Lasagna" }).2
      = [Req.createRecipe "Lasagna", Req.createRecipe "Lasagna (mela-1700000000)",
         Req.patchRecipe "lasagna-2"
           (convert_mela_to_mealie gid gid' { title := some "Lasagna" } [] [])] := by
  have h := migrate_conflict_retry conflictRetryOkOracle 1700000000 [] [] true gid gid'
    { title := some "Lasagna" } (by decide) (by decide) (by decide)
  refine ⟨h.1, ?_⟩
  rw [h.2]
  rfl

/-! ## C3: idempotence of `slugify`

The proof goes through the canonical form `Slugish`: every `slugify` output
is `Slugish`, and `slugify` is the identity on `Slugish` lists. -/

theorem toNat_ofNat_valid {n : Nat} (h : n.isValidChar) : (Char.ofNat n).toNat = n := by
  rw [Char.ofNat, dif_pos h]
  rfl

theorem uint32_ofNat_le_val (n : Nat) (c : Char) (h : n < 4294967296) :
    ((UInt32.ofNat n) ≤ c.val) ↔ n ≤ c.toNat := by
  rw [UInt32.le_def, BitVec.le_def]
  have he : ((UInt32.ofNat n).toBitVec).toNat = n := UInt32.toBitVec_eq_of_lt h
  rw [he]
  rfl

theorem uint32_val_le_ofNat (n : Nat) (c : Char) (h : n < 4294967296) :
    (c.val ≤ (UInt32.ofNat n)) ↔ c.toNat ≤ n := by
  rw [UInt32.le_def, BitVec.le_def]
  have he : ((UInt32.ofNat n).toBitVec).toNat = n := UInt32.toBitVec_eq_of_lt h
  rw [he]
  rfl

theorem isUpper_iff (c : Char) : c.isUpper = true ↔ 65 ≤ c.toNat ∧ c.toNat ≤ 90 := by
  simp only [Char.isUpper, Bool.and_eq_true, decide_eq_true_eq, ge_iff_le]
  rw [show (65 : UInt32) = UInt32.ofNat 65 from rfl,
    show (90 : UInt32) = UInt32.ofNat 90 from rfl]
  rw [uint32_ofNat_le_val 65 c (by norm_num), uint32_val_le_ofNat 90 c (by norm_num)]

theorem toLower_eq_self {c : Char} (h : c.isUpper = false) : c.toLower = c := by
  rw [Char.toLower]
  rw [if_neg]
  intro hcon
  have h2 := (isUpper_iff c).mpr ⟨hcon.1, hcon.2⟩
  rw [h] at h2
  cases h2

theorem toLower_not_upper (c : Char) : (c.toLower).isUpper = false := by
  rw [Char.toLower]
  by_cases h : c.toNat ≥ 65 ∧ c.toNat ≤ 90
  · rw [if_pos h]
    have hv : (c.toNat + 32).isValidChar := Or.inl (by omega)
    have ht : (Char.ofNat (c.toNat + 32)).toNat = c.toNat + 32 := toNat_ofNat_valid hv
    by_contra hcon
    have hu : (Char.ofNat (c.toNat + 32)).isUpper = true := by
      cases he : (Char.ofNat (c.toNat + 32)).isUpper
      · exact absurd he hcon
      · rfl
    have h2 := (isUpper_iff _).mp hu
    rw [ht] at h2
    omega
  · rw [if_neg h]
    cases he : c.isUpper
    · rfl
    · exact absurd ((isUpper_iff c).mp he) (by omega)

theorem toLower_lt_128 {c : Char} (h : c.toNat < 128) : (c.toLower).toNat < 128 := by
  rw [Char.toLower]
  by_cases hc : c.toNat ≥ 65 ∧ c.toNat ≤ 90
  · rw [if_pos hc]
    have hv : (c.toNat + 32).isValidChar := Or.inl (by omega)
    rw [toNat_ofNat_valid hv]
    omega
  · rw [if_neg hc]
    exact h

theorem subRunsAux_mem {p : Char → Bool} {r : Char} {l : List Char} {c : Char} :
    ∀ {b : Bool}, c ∈ subRunsAux p r b l → c = r ∨ (c ∈ l ∧ p c = false) := by
  induction l with
  | nil => intro b h; simp [subRunsAux] at h
  | cons d ds ih =>
    intro b h
    by_cases hd : p d = true
    · cases b with
      | true =>
        simp only [subRunsAux, hd, if_true] at h
        rcases ih h with h' | ⟨hm, hp⟩
        · exact Or.inl h'
        · exact Or.inr ⟨List.mem_cons_of_mem d hm, hp⟩
      | false =>
        simp only [subRunsAux, hd, if_true, if_false] at h
        rcases List.mem_cons.mp h with h' | h'
        · exact Or.inl h'
        · rcases ih h' with h'' | ⟨hm, hp⟩
          · exact Or.inl h''
          · exact Or.inr ⟨List.mem_cons_of_mem d hm, hp⟩
    · have hd' : p d = false := by
        cases he : p d
        · rfl
        · exact absurd he hd
      simp only [subRunsAux, hd', Bool.false_eq_true, if_false] at h
      rcases List.mem_cons.mp h with h' | h'
      · exact Or.inr ⟨h' ▸ List.mem_cons_self d ds, h' ▸ hd'⟩
      · rcases ih h' with h'' | ⟨hm, hp⟩
        · exact Or.inl h''
        · exact Or.inr ⟨List.mem_cons_of_mem d hm, hp⟩

theorem subRunsAux_eq_self {p : Char → Bool} {r : Char} {l : List Char}
    (h : ∀ c ∈ l, p c = false) : ∀ b, subRunsAux p r b l = l := by
  induction l with
  | nil => intro b; rfl
  | cons d ds ih =>
    intro b
    have hd := h d (List.mem_cons_self d ds)
    simp only [subRunsAux, hd, Bool.false_eq_true, if_false]
    exact congr_arg₂ List.cons rfl (ih (fun c hc => h c (List.mem_cons_of_mem d hc)) false)

theorem subRunsAux_true_head {p : Char → Bool} {r : Char} {l : List Char} {c : Char}
    (h : (subRunsAux p r true l).head? = some c) : p c = false := by
  induction l with
  | nil => simp [subRunsAux] at h
  | cons d ds ih =>
    by_cases hd : p d = true
    · simp only [subRunsAux, hd, if_true] at h
      exact ih h
    · have hd' : p d = false := by
        cases he : p d
        · rfl
        · exact absurd he hd
      simp only [subRunsAux, hd', Bool.false_eq_true, if_false, List.head?_cons,
        Option.some.injEq] at h
      exact h ▸ hd'

theorem subRunsAux_chain' {p : Char → Bool} {r : Char} (l : List Char) :
    ∀ b, List.Chain' (fun a c => ¬(p a = true ∧ p c = true)) (subRunsAux p r b l) := by
  induction l with
  | nil => intro b; simp [subRunsAux]
  | cons d ds ih =>
    intro b
    by_cases hd : p d = true
    · cases b with
      | true =>
        simp only [subRunsAux, hd, if_true]
        exact ih true
      | false =>
        simp only [subRunsAux, hd, if_true, if_false]
        refine List.chain'_cons'.mpr ⟨?_, ih true⟩
        intro y hy
        intro hcon
        rw [subRunsAux_true_head hy] at hcon
        exact absurd hcon.2 (by simp)
    · have hd' : p d = false := by
        cases he : p d
        · rfl
        · exact absurd he hd
      simp only [subRunsAux, hd', Bool.false_eq_true, if_false]
      refine List.chain'_cons'.mpr ⟨?_, ih false⟩
      intro y hy
      intro hcon
      rw [hd'] at hcon
      exact absurd hcon.1 (by simp)

theorem subRunsAux_single_id {p : Char → Bool} {r : Char} (hp : ∀ c, p c = true → c = r) :
    ∀ {l : List Char}, List.Chain' (fun a c => ¬(p a = true ∧ p c = true)) l →
      subRunsAux p r false l = l := by
  intro l
  induction l with
  | nil => intro _; rfl
  | cons d ds ih =>
    intro hch
    by_cases hd : p d = true
    · have hdr : d = r := hp d hd
      cases ds with
      | nil => simp [subRunsAux, hd, hdr]
      | cons e es =>
        have hde : ¬(p d = true ∧ p e = true) := (List.chain'_cons.mp hch).1
        have hpe : p e = false := by
          cases he : p e
          · rfl
          · exact absurd ⟨hd, he⟩ hde
        have hrec := ih (List.chain'_cons.mp hch).2
        have hes : subRunsAux p r false es = es := by
          simpa [subRunsAux, hpe] using hrec
        simp [subRunsAux, hd, hpe, hdr, hes]
    · have hd' : p d = false := by
        cases he : p d
        · rfl
        · exact absurd he hd
      simp only [subRunsAux, hd', Bool.false_eq_true, if_false]
      exact congr_arg₂ List.cons rfl (ih hch.tail)

theorem asciiFold_ascii {x c : Char} (h : c ∈ asciiFoldChar x) : c.toNat < 128 := by
  unfold asciiFoldChar at h
  split at h
  · rw [List.mem_singleton] at h
    subst h
    assumption
  · repeat' split at h
    all_goals first
      | (rw [List.mem_singleton] at h; subst h; decide)
      | simp at h

theorem flatMap_asciiFold_ascii {l : List Char} {c : Char}
    (h : c ∈ l.flatMap asciiFoldChar) : c.toNat < 128 := by
  rcases List.mem_flatMap.mp h with ⟨x, _, hc⟩
  exact asciiFold_ascii hc

theorem lowered_mem {l : List Char} {c : Char}
    (h : c ∈ (l.flatMap asciiFoldChar).map Char.toLower) :
    c.toNat < 128 ∧ c.isUpper = false := by
  rcases List.mem_map.mp h with ⟨x, hx, rfl⟩
  exact ⟨toLower_lt_128 (flatMap_asciiFold_ascii hx), toLower_not_upper x⟩

theorem mem_of_head? {α : Type} {l : List α} {c : α} (h : l.head? = some c) : c ∈ l := by
  cases l with
  | nil => simp at h
  | cons d ds =>
    rw [List.head?_cons, Option.some_inj] at h
    exact h ▸ List.mem_cons_self d ds

theorem mem_of_getLast? {α : Type} {l : List α} {c : α} (h : l.getLast? = some c) :
    c ∈ l := by
  have h' : l.reverse.head? = some c := by
    rw [List.head?_reverse]
    exact h
  exact List.mem_reverse.mp (mem_of_head? h')

/-- Every `slugify` output is in canonical slug form. -/
theorem slugifyList_slugish (l : List Char) : Slugish (slugifyList l) := by
  refine ⟨?_, ?_, ?_, ?_⟩
  · intro c hc
    simp only [slugifyList, subRuns] at hc
    have hc5 := mem_stripEnds hc
    rcases subRunsAux_mem hc5 with rfl | ⟨hc4, _⟩
    · exact ⟨by decide, by decide, Or.inr rfl, by decide, by decide⟩
    · rcases subRunsAux_mem hc4 with rfl | ⟨hc3, hpsp⟩
      · exact ⟨by decide, by decide, Or.inr rfl, by decide, by decide⟩
      · have hc3' := List.mem_filter.mp hc3
        have hkeep := hc3'.2
        have hc1 := mem_stripEnds hc3'.1
        have hascii := lowered_mem hc1
        have hsp : isPySpace c = false := by
          rcases Bool.or_eq_false_iff.mp hpsp with ⟨h1, _⟩
          exact h1
        have hus : c ≠ '_' := by
          rcases Bool.or_eq_false_iff.mp hpsp with ⟨_, h2⟩
          simpa using h2
        have hword : isWordChar c = true ∨ c = '-' := by
          rcases Bool.or_eq_true_iff.mp hkeep with hw2 | hhyph
          · rcases Bool.or_eq_true_iff.mp hw2 with hw | hsp'
            · exact Or.inl hw
            · rw [hsp] at hsp'
              cases hsp'
          · exact Or.inr (by simpa using hhyph)
        exact ⟨hascii.1, hascii.2, hword, hsp, hus⟩
  · simp only [slugifyList, subRuns, noTwoHyphens]
    apply stripEnds_chain'
    refine (subRunsAux_chain' _ false).imp ?_
    intro a b h hcon
    exact h ⟨by simpa using hcon.1, by simpa using hcon.2⟩
  · intro c hc
    simp only [slugifyList, subRuns] at hc
    have := stripEnds_head_false hc
    simpa using this
  · intro c hc
    simp only [slugifyList, subRuns] at hc
    have := stripEnds_getLast_false hc
    simpa using this

theorem flatMap_id {l : List Char} (h : ∀ c ∈ l, asciiFoldChar c = [c]) :
    l.flatMap asciiFoldChar = l := by
  induction l with
  | nil => rfl
  | cons d ds ih =>
    rw [List.flatMap_cons, h d (List.mem_cons_self d ds),
      ih (fun c hc => h c (List.mem_cons_of_mem d hc))]
    rfl

theorem map_id_on {f : Char → Char} {l : List Char} (h : ∀ c ∈ l, f c = c) :
    l.map f = l := by
  induction l with
  | nil => rfl
  | cons d ds ih =>
    rw [List.map_cons, h d (List.mem_cons_self d ds),
      ih (fun c hc => h c (List.mem_cons_of_mem d hc))]

/-- `slugify` is the identity on canonical slug forms. -/
theorem slugifyList_eq_self {l : List Char} (hs : Slugish l) : slugifyList l = l := by
  obtain ⟨hgood, hchain, hhead, hlast⟩ := hs
  have h1 : l.flatMap asciiFoldChar = l :=
    flatMap_id (fun c hc => by
      unfold asciiFoldChar
      rw [if_pos (hgood c hc).1])
  have h2 : l.map Char.toLower = l :=
    map_id_on (fun c hc => toLower_eq_self (hgood c hc).2.1)
  have h3 : pyStrip l = l := by
    apply stripEnds_eq_self
    · intro c hc
      exact (hgood c (mem_of_head? hc)).2.2.2.1
    · intro c hc
      exact (hgood c (mem_of_getLast? hc)).2.2.2.1
  have h4 : l.filter (fun c => isWordChar c || isPySpace c || c = '-') = l := by
    apply List.filter_eq_self.mpr
    intro c hc
    rcases (hgood c hc).2.2.1 with hw | rfl
    · simp [hw]
    · simp
  have h5 : subRuns (fun c => isPySpace c || c = '_') '-' l = l := by
    unfold subRuns
    apply subRunsAux_eq_self
    intro c hc
    have := hgood c hc
    simp [this.2.2.2.1, this.2.2.2.2]
  have h6 : subRuns (fun c => c = '-') '-' l = l := by
    unfold subRuns
    apply subRunsAux_single_id
    · intro c h
      simpa using h
    · refine hchain.imp ?_
      intro a b h hcon
      exact h ⟨by simpa using hcon.1, by simpa using hcon.2⟩
  have h7 : stripEnds (fun c => c = '-') l = l := by
    apply stripEnds_eq_self
    · intro c hc
      simpa using hhead c hc
    · intro c hc
      simpa using hlast c hc
  simp only [slugifyList]
  rw [h1, h2, h3, h4, h5, h6, h7]

/-- C3: `slugify` is idempotent. -/
theorem slugify_idempotent (x : String) : slugify (slugify x) = slugify x := by
  unfold slugify
  exact congrArg String.mk (slugifyList_eq_self (slugifyList_slugish x.data))

end MelaToMealie
